import Mathlib

/-!
Verification of the convert-file conversion engine
(cinnamon-spices-actions, action `convert-file@thigschuch`).

The Lean definitions below are shallow embeddings of the Python source:

* `converters/helpers/execution.py`   — `SubprocessResult`, `CommandExecutionResult`,
  `CommandExecutor.run_cancellable_command`, `execute_chained_commands`,
  `_execute_regular_chained_commands`, `_execute_shell_chained_commands`;
* `converters/helpers/commands.py`    — `CommandParser.is_shell_command`,
  `parse_command`, `split_chained_commands`, `format_template`;
* `converters/helpers/template_processor.py` — `_parse_command_string`,
  temp-resource acquisition of `_process_template`;
* `converters/helpers/file_manager.py` — `get_target_file`,
  `ensure_unique_filename`, `delete_target_file`;
* `utils/validation.py`               — `FileValidator.get_file_format`,
  `get_base_name_and_extension`;
* `config/formats.py`                 — `get_canonical_format`,
  `get_available_formats`, the hard-coded format groups;
* `actions/batch_helpers/format_validator.py` — `get_common_formats`,
  `_get_cross_format_conversions`;
* `converters/base.py`                — the post-execution dispatch of
  `Converter.convert`.

Modelling conventions: Python strings are `String`; Python sets are `Finset
String`; the filesystem is a finite list of existing path names and is assumed
free of I/O errors; subprocess spawning and cancellation-flag reads are
oracle parameters (nondeterminism of the environment); GTK/notification/logging
calls have no observable effect on the modelled state and are dropped.
-/

namespace ConvertFile

/-! ## String primitives

Python `in`, `startswith`, `endswith`, `lstrip`, `rstrip`, `strip`, `split`
modelled on the character lists underlying `String`. -/

/-- Python `pat in s` (substring containment). -/
def strContains (s pat : String) : Bool :=
  decide (pat.data <:+: s.data)

/-- Python `s.startswith pat`. -/
def strStarts (s pat : String) : Bool :=
  pat.data.isPrefixOf s.data

/-- Python `s.endswith pat`. -/
def strEnds (s pat : String) : Bool :=
  pat.data.isSuffixOf s.data

/-- Python `s.lstrip()` (drop leading whitespace). -/
def pyLStrip (s : String) : String :=
  ⟨s.data.dropWhile Char.isWhitespace⟩

/-- Python `s.rstrip()` (drop trailing whitespace). -/
def pyRStrip (s : String) : String :=
  ⟨(s.data.reverse.dropWhile Char.isWhitespace).reverse⟩

/-- Python `s.strip()`. -/
def pyStrip (s : String) : String :=
  pyLStrip (pyRStrip s)

/-- Python `" ".join l`. -/
def joinSpace (l : List String) : String :=
  String.intercalate " " l

/-- Splitter underlying `pySplitWs`: walk the characters accumulating the
current (reversed) token, emitting it at each whitespace boundary. -/
def splitWsAux : List Char → List Char → List String
  | [], cur => if cur.isEmpty then [] else [String.mk cur.reverse]
  | c :: rest, cur =>
    if c.isWhitespace then
      if cur.isEmpty then splitWsAux rest []
      else String.mk cur.reverse :: splitWsAux rest []
    else splitWsAux rest (c :: cur)

/-- Python `s.split()` — split on whitespace runs, no empty tokens. -/
def pySplitWs (s : String) : List String :=
  splitWsAux s.data []

/-- Split on a single separator character, keeping empty pieces (Python
`s.split(sep)` for a one-character separator). -/
def splitOnCharAux (sep : Char) : List Char → List Char → List String
  | [], cur => [String.mk cur.reverse]
  | c :: rest, cur =>
    if c = sep then String.mk cur.reverse :: splitOnCharAux sep rest []
    else splitOnCharAux sep rest (c :: cur)

/-- Python `s.split(sep)` for a one-character separator. -/
def splitOnChar (sep : Char) (s : String) : List String :=
  splitOnCharAux sep s.data []

/-- Split on a (nonempty) separator string, keeping empty pieces; the fuel is
decremented once per consumed character, so `l.length` suffices and the
fuel-exhausted arm is unreachable. -/
def splitOnStrAux (sep : List Char) : Nat → List Char → List Char → List String
  | _, [], cur => [String.mk cur.reverse]
  | 0, l, cur => [String.mk (cur.reverse ++ l)]
  | fuel + 1, c :: rest, cur =>
    if sep.isPrefixOf (c :: rest) then
      String.mk cur.reverse :: splitOnStrAux sep fuel (rest.drop (sep.length - 1)) []
    else splitOnStrAux sep fuel rest (c :: cur)

/-- Python `s.split(sep)` for a nonempty separator string. -/
def splitOnStr (sep : String) (s : String) : List String :=
  splitOnStrAux sep.data s.data.length s.data []

/-! ## `String.toUpper` is idempotent

`config/formats.py` upper-cases format tags repeatedly; these lemmas let the
repeated applications collapse. -/

theorem char_toNat_ofNat_valid (n : Nat) (h : n.isValidChar) :
    (Char.ofNat n).toNat = n := by
  rw [Char.ofNat, dif_pos h]
  rfl

theorem char_toUpper_idem (c : Char) : c.toUpper.toUpper = c.toUpper := by
  unfold Char.toUpper
  by_cases h : 97 ≤ c.toNat ∧ c.toNat ≤ 122
  · rw [if_pos h]
    have hv : (c.toNat - 32).isValidChar := Or.inl (by omega)
    have ht : (Char.ofNat (c.toNat - 32)).toNat = c.toNat - 32 :=
      char_toNat_ofNat_valid _ hv
    rw [if_neg]
    rw [ht]
    omega
  · rw [if_neg h, if_neg h]

theorem string_toUpper_idem (s : String) : s.toUpper.toUpper = s.toUpper := by
  simp only [String.toUpper, String.map_eq, List.map_map]
  congr 1
  apply List.map_congr_left
  intro c _
  exact char_toUpper_idem c

/-! ## Message constants (`utils/text.py`, class `Operations`)

Gettext translation `_` is the identity in the source locale. -/

/-- `text.Operations.FAILED_MESSAGE`. -/
def operationFailedMessage : String := "Operation failed"

/-- `text.Operations.CANCELLED_BY_USER_MESSAGE`. -/
def cancelledByUserMessage : String := "Operation cancelled by user"

/-- The literal `"Operation cancelled"` returned by `execute_single_command`
and `execute_chained_commands` when a cancel flag is observed. -/
def operationCancelledMessage : String := "Operation cancelled"

/-- The literal `"No commands to execute"` from `execute_chained_commands`. -/
def noCommandsMessage : String := "No commands to execute"

/-- `text.Operations.CHAINED_COMMAND_STEP_FAILED_MESSAGE.format(step, total, error, command)`:
`"Step {step}/{total} failed.\n\nError: {error}\n\nCommand: {command}"`. -/
def chainedStepFailedMessage (step total : Nat) (error command : String) : String :=
  "Step " ++ Nat.repr step ++ "/" ++ Nat.repr total ++ " failed.\n\nError: "
    ++ error ++ "\n\nCommand: " ++ command

/-- `text.Operations.FILE_VALIDATION_FAILED_MESSAGE.format(file, previous_error)`. -/
def fileValidationFailedMessage (file previousError : String) : String :=
  "File validation failed: " ++ file
    ++ "\n\nThe previous conversion step likely failed.\n\nPrevious step output:\n"
    ++ previousError

/-! ## Subprocess results (`converters/helpers/execution.py`) -/

/-- `SubprocessResult.__init__`: return code, captured stdout/stderr, and the
command string that ran.  `success` is the derived field `returncode == 0`. -/
structure SubprocessResult where
  returncode : Int
  stdout : String
  stderr : String
  command : String
deriving Repr, DecidableEq

/-- `SubprocessResult.success` (set in `__init__` as `returncode == 0`). -/
def SubprocessResult.success (r : SubprocessResult) : Bool :=
  r.returncode == 0

/-- `SubprocessResult.error_output`: `self.stderr or self.stdout or
text.Operations.FAILED_MESSAGE`. -/
def SubprocessResult.errorOutput (r : SubprocessResult) : String :=
  if r.stderr ≠ "" then r.stderr
  else if r.stdout ≠ "" then r.stdout
  else operationFailedMessage

/-- `CommandExecutionResult.__init__`. -/
structure CommandExecutionResult where
  success : Bool
  errorMessage : Option String
  command : Option String
  cancelled : Bool
deriving Repr, DecidableEq

/-! ## `CommandExecutor.run_cancellable_command`

The subprocess environment is an oracle: spawning either raises (any
exception, caught by the `except` clause) or runs a process that stays alive
for a number of liveness-poll cancellation checks and then exits with a given
return code and outputs.  `cancelCheck k` is the outcome of the `k`-th call to
the cancellation predicate made by this invocation (`k = 0` is the check
before `subprocess.Popen`; checks `1, 2, …` happen while the process is
alive).  The source groups the in-flight checks five per `poll()` call, which
only affects their real-time spacing, not which check is the first to observe
a cancellation. -/

/-- A Python `Union[str, List[str]]` command argument. -/
inductive PyCmd where
  | str (s : String)
  | list (l : List String)
deriving Repr, DecidableEq

/-- The `cmd_str` computation at the top of `run_cancellable_command`:
a string command is itself; a two-element list under `shell=True` is its
second element; any other list is joined with spaces. -/
def cmdStr (command : PyCmd) (shell : Bool) : String :=
  match command, shell with
  | .str s, _ => s
  | .list [_, b], true => b
  | .list l, _ => joinSpace l

/-- Oracle describing what `subprocess.Popen` and the liveness polls do for
one invocation. -/
inductive SpawnBehavior where
  | raises (msg : String)
  | runs (ticks : Nat) (rc : Int) (out err : String)
deriving Repr, DecidableEq

/-- `CommandExecutor.run_cancellable_command` (execution.py lines 368-462). -/
def runCancellableCommand (command : PyCmd) (shell : Bool)
    (spawn : SpawnBehavior) (cancelCheck : Nat → Bool) : SubprocessResult :=
  let cs := cmdStr command shell
  if cancelCheck 0 then
    ⟨-1, "", cancelledByUserMessage, cs⟩
  else
    match spawn with
    | .raises msg => ⟨-1, "", msg, cs⟩
    | .runs ticks rc out err =>
      match (List.range ticks).find? (fun k => cancelCheck (k + 1)) with
      | some _ => ⟨-1, "", cancelledByUserMessage, cs⟩
      | none => ⟨rc, out, err, cs⟩

/-! ## Chained execution (`execute_chained_commands` and helpers)

The executor's `_is_cancelled` reads are oracles: `topCancel i` is the check
at the top of the loop iteration for step `i`, and `stepCancel i` is the
check sequence handed to `run_cancellable_command` for step `i`.  `spawnAt i`
is the subprocess behavior of step `i`. -/

/-- The result `run_cancellable_command(cmd, shell=False, …)` produces for
step `i` of a regular chained execution. -/
def stepRes (spawnAt : Nat → SpawnBehavior) (stepCancel : Nat → Nat → Bool)
    (i : Nat) (cmd : List String) : SubprocessResult :=
  runCancellableCommand (.list cmd) false (spawnAt i) (stepCancel i)

/-- The `is_validation_step` test of `_execute_regular_chained_commands`:
`len(cmd) >= 3 and cmd[0] == "test" and cmd[1] == "-f"`. -/
def isValidationStep (cmd : List String) : Bool :=
  match cmd with
  | a :: b :: _ :: _ => a == "test" && b == "-f"
  | _ => false

/-- The error message built for a failing step `i` (0-based) out of `total`,
given the result of the previous successful step (`prev`). -/
def failingStepMessage (i total : Nat) (cmd : List String)
    (prev : Option SubprocessResult) (result : SubprocessResult) : String :=
  if isValidationStep cmd && prev.isSome then
    fileValidationFailedMessage ((cmd.get? 2).getD "output file")
      ((prev.map SubprocessResult.errorOutput).getD "")
  else
    chainedStepFailedMessage (i + 1) total result.errorOutput (joinSpace cmd)

/-- Loop body of `_execute_regular_chained_commands` (execution.py lines
304-366).  Returns the `CommandExecutionResult` together with the list of
0-based indices of the steps whose subprocess was actually launched (the
execution trace); the progress callback has no modelled effect. -/
def execRegularChainedAux (spawnAt : Nat → SpawnBehavior)
    (topCancel : Nat → Bool) (stepCancel : Nat → Nat → Bool) (total : Nat) :
    Nat → Option SubprocessResult → List (List String) →
    CommandExecutionResult × List Nat
  | _, _, [] => (⟨true, none, none, false⟩, [])
  | i, prev, cmd :: rest =>
    if topCancel i then
      (⟨false, some operationCancelledMessage, none, true⟩, [])
    else
      let result := stepRes spawnAt stepCancel i cmd
      if result.success then
        let next := execRegularChainedAux spawnAt topCancel stepCancel total
          (i + 1) (some result) rest
        (next.1, i :: next.2)
      else
        (⟨false, some (failingStepMessage i total cmd prev result),
          some result.command, false⟩, [i])

/-- `_execute_regular_chained_commands`, entered with step index 0 and no
previous result. -/
def execRegularChainedCommands (spawnAt : Nat → SpawnBehavior)
    (topCancel : Nat → Bool) (stepCancel : Nat → Nat → Bool)
    (commands : List (List String)) : CommandExecutionResult × List Nat :=
  execRegularChainedAux spawnAt topCancel stepCancel commands.length 0 none commands

/-- Modelled from the spec: `converters/helpers/constants.py` is not under
`src/` (only its importers are).  Per spec §4.4/§4.5, the shell operators are
the pipe, the logical AND/OR, and the redirection operators. -/
def SHELL_OPERATORS : List String := ["&&", "||", "|", ">", ">>", "<", "<<"]

/-- The `needs_shell` test of `execute_chained_commands`:
`(cmd[0] in shell_builtins if cmd else False) or (len(cmd) > 1 and
any(op in cmd[1] for op in SHELL_OPERATORS))`. -/
def needsShellChained (shellBuiltins : List String)
    (commands : List (List String)) : Bool :=
  commands.any (fun cmd =>
    (match cmd with
     | [] => false
     | t :: _ => shellBuiltins.contains t)
    || (decide (cmd.length > 1)
        && SHELL_OPERATORS.any (fun op => strContains ((cmd.get? 1).getD "") op)))

/-- Python `shlex.quote`: leave the token alone when every character is
alphanumeric or one of underscore, at, percent, plus, equals, colon, comma,
dot, slash, hyphen; otherwise wrap it in single quotes, replacing each
embedded single quote by quote-dquote-quote-dquote-quote.  (Two single quotes
for the empty token.) -/
def shlexQuote (s : String) : String :=
  let squote : Char := Char.ofNat 39
  if s = "" then String.mk [squote, squote]
  else if s.data.all (fun c =>
      c.isAlphanum || c ∈ ['_', '@', '%', '+', '=', ':', ',', '.', '/', '-']) then
    s
  else
    ⟨squote :: (s.data.flatMap (fun c =>
      if c = squote then [squote, '"', squote, '"', squote] else [c])) ++ [squote]⟩

/-- Python `shlex.join`. -/
def shlexJoin (l : List String) : String :=
  joinSpace (l.map shlexQuote)

/-- The command string built by `_execute_shell_chained_commands`
(execution.py lines 266-302). -/
def shellChainedCommandString (commands : List (List String)) : String :=
  String.intercalate " && " (commands.map (fun cmd =>
    match cmd with
    | [_, b] =>
      if SHELL_OPERATORS.any (fun op => strContains b op) then b else shlexJoin cmd
    | _ => shlexJoin cmd))

/-- `_execute_shell_chained_commands`.  `cancelledAfter` reproduces the
executor's sticky `_cancelled` flag after the run: true exactly when some
cancellation check during this invocation returned true. -/
def execShellChainedCommands (spawn : SpawnBehavior) (cancel : Nat → Bool)
    (commands : List (List String)) : CommandExecutionResult :=
  let r := runCancellableCommand (.str (shellChainedCommandString commands))
    true spawn cancel
  let cancelledAfter :=
    cancel 0 ||
      (match spawn with
       | .raises _ => false
       | .runs ticks _ _ _ => (List.range ticks).any (fun k => cancel (k + 1)))
  ⟨r.success, if r.success then none else some r.errorOutput,
    some r.command, cancelledAfter⟩

/-- `CommandExecutor.execute_chained_commands` (execution.py lines 216-264).
`initCancel` is the `_is_cancelled()` read made before dispatch; the
shell-chained path uses the `shellSpawn`/`shellCancel` oracles. -/
def executeChainedCommands (initCancel : Bool)
    (spawnAt : Nat → SpawnBehavior) (topCancel : Nat → Bool)
    (stepCancel : Nat → Nat → Bool)
    (shellSpawn : SpawnBehavior) (shellCancel : Nat → Bool)
    (shellBuiltins : List String)
    (commands : List (List String)) : CommandExecutionResult :=
  if commands.isEmpty then
    ⟨false, some noCommandsMessage, none, false⟩
  else if initCancel then
    ⟨false, some operationCancelledMessage, none, true⟩
  else if needsShellChained shellBuiltins commands then
    execShellChainedCommands shellSpawn shellCancel commands
  else
    (execRegularChainedCommands spawnAt topCancel stepCancel commands).1

/-! ## First-failure behavior of the step-by-step chained executor -/

/-- Prepending the start index to an offset-by-one trace is the trace of the
enlarged range. -/
theorem cons_map_range (s n : Nat) :
    s :: (List.range n).map ((s + 1) + ·) = (List.range (n + 1)).map (s + ·) := by
  rw [List.range_succ_eq_map]
  simp only [List.map_cons, Nat.add_zero, List.map_map]
  congr 1
  apply List.map_congr_left
  intro x _
  simp only [Function.comp_apply]
  omega

/-- Behavior of the chained loop from an arbitrary state: if within the
remaining commands the first `j` steps succeed and step `j` fails, the loop
stops at step `j` with the corresponding error and its trace covers exactly
the steps up to and including `j`.  `prevAt` is the `previous_result` value
seen by the failing step: the incoming `prev` when `j = 0`, the result of
step `j - 1` otherwise. -/
theorem execRegularChainedAux_firstFail
    (spawnAt : Nat → SpawnBehavior) (topCancel : Nat → Bool)
    (stepCancel : Nat → Nat → Bool) (total : Nat)
    (htop : ∀ k, topCancel k = false) :
    ∀ (cmds : List (List String)) (s : Nat) (prev : Option SubprocessResult)
      (j : Nat) (prevAt : Option SubprocessResult),
      j < cmds.length →
      (∀ l, l < j →
        (stepRes spawnAt stepCancel (s + l) (cmds.getD l [])).success = true) →
      (stepRes spawnAt stepCancel (s + j) (cmds.getD j [])).success = false →
      (j = 0 → prevAt = prev) →
      (∀ k, j = k + 1 →
        prevAt = some (stepRes spawnAt stepCancel (s + k) (cmds.getD k []))) →
      execRegularChainedAux spawnAt topCancel stepCancel total s prev cmds =
        (⟨false,
          some (failingStepMessage (s + j) total (cmds.getD j []) prevAt
            (stepRes spawnAt stepCancel (s + j) (cmds.getD j []))),
          some (stepRes spawnAt stepCancel (s + j) (cmds.getD j [])).command,
          false⟩,
         (List.range (j + 1)).map (s + ·)) := by
  intro cmds
  induction cmds with
  | nil =>
    intro s prev j prevAt hj
    simp at hj
  | cons c rest ih =>
    intro s prev j prevAt hj hsucc hfail hprev0 hprevS
    rw [execRegularChainedAux]
    simp only [htop s, Bool.false_eq_true, if_false]
    cases j with
    | zero =>
      simp only [Nat.add_zero, List.getD_cons_zero] at hfail
      simp only [hfail, Bool.false_eq_true, if_false]
      rw [hprev0 rfl]
      simp [List.range_succ]
    | succ m =>
      have hc : (stepRes spawnAt stepCancel s c).success = true := by
        have := hsucc 0 (Nat.succ_pos m)
        simpa using this
      simp only [hc, if_true]
      have hrest :
          execRegularChainedAux spawnAt topCancel stepCancel total (s + 1)
            (some (stepRes spawnAt stepCancel s c)) rest =
          (⟨false,
            some (failingStepMessage (s + 1 + m) total (rest.getD m []) prevAt
              (stepRes spawnAt stepCancel (s + 1 + m) (rest.getD m []))),
            some (stepRes spawnAt stepCancel (s + 1 + m) (rest.getD m [])).command,
            false⟩,
           (List.range (m + 1)).map ((s + 1) + ·)) := by
        apply ih (s + 1) (some (stepRes spawnAt stepCancel s c)) m prevAt
        · simpa using Nat.lt_of_succ_lt_succ hj
        · intro l hl
          have := hsucc (l + 1) (Nat.succ_lt_succ hl)
          simpa [Nat.add_comm, Nat.add_assoc, Nat.add_left_comm] using this
        · have := hfail
          simpa [Nat.add_comm, Nat.add_assoc, Nat.add_left_comm] using this
        · intro hm
          subst hm
          have := hprevS 0 rfl
          simpa using this
        · intro k hk
          subst hk
          have := hprevS (k + 1) rfl
          have e : s + 1 + k = s + (k + 1) := by omega
          rw [e]
          simpa using this
      rw [hrest]
      dsimp only
      have e1 : s + 1 + m = s + (m + 1) := by omega
      rw [e1]
      congr 1
      exact cons_map_range s (m + 1)

/-- **C1** — For every chained command plan executed step by step with no
cancellation, if the first `i` steps succeed and step `i` fails, then the
trace of launched steps is exactly `[0, …, i]` (no later step runs), the
result has `success = false`, `cancelled = false`, and its error message is
the one built for step `i` — the predecessor's error text when step `i` is an
injected `test -f` existence check with a predecessor, the step's own error
text (tagged with the 1-based rendering `i + 1` of its index) otherwise. -/
theorem claim_C1_chainedFailureStops
    (spawnAt : Nat → SpawnBehavior) (topCancel : Nat → Bool)
    (stepCancel : Nat → Nat → Bool)
    (cmds : List (List String)) (i : Nat)
    (htop : ∀ k, topCancel k = false)
    (hi : i < cmds.length)
    (hsucc : ∀ l, l < i →
      (stepRes spawnAt stepCancel l (cmds.getD l [])).success = true)
    (hfail : (stepRes spawnAt stepCancel i (cmds.getD i [])).success = false) :
    execRegularChainedCommands spawnAt topCancel stepCancel cmds =
      (⟨false,
        some (failingStepMessage i cmds.length (cmds.getD i [])
          (if i = 0 then none
           else some (stepRes spawnAt stepCancel (i - 1) (cmds.getD (i - 1) [])))
          (stepRes spawnAt stepCancel i (cmds.getD i []))),
        some (stepRes spawnAt stepCancel i (cmds.getD i [])).command,
        false⟩,
       List.range (i + 1)) := by
  have h := execRegularChainedAux_firstFail spawnAt topCancel stepCancel
    cmds.length htop cmds 0 none i
    (if i = 0 then none
     else some (stepRes spawnAt stepCancel (i - 1) (cmds.getD (i - 1) [])))
    hi
    (by intro l hl; simpa using hsucc l hl)
    (by simpa using hfail)
    (by intro h0; simp [h0])
    (by intro k hk; subst hk; simp)
  rw [execRegularChainedCommands, h]
  simp

/-- Witness for C1: the spec's test — the chain `["step1", "step2"]` where
`step1` exits with code 1 and stderr `"boom"`.  `step2` never launches (the
trace is `[0]`), and the reported failing step is the one at index 0
(rendered `Step 1/2` in the message). -/
theorem claim_C1_chainedFailureStops_witness :
    execRegularChainedCommands
        (fun _ => SpawnBehavior.runs 0 1 "" "boom")
        (fun _ => false) (fun _ _ => false)
        [["step1"], ["step2"]] =
      (⟨false, some (chainedStepFailedMessage 1 2 "boom" "step1"),
        some "step1", false⟩, [0]) := by
  have h := claim_C1_chainedFailureStops
    (fun _ => SpawnBehavior.runs 0 1 "" "boom")
    (fun _ => false) (fun _ _ => false)
    [["step1"], ["step2"]] 0
    (fun _ => rfl) (by decide)
    (by intro l hl; omega)
    (by decide)
  rw [h]
  decide

/-- **C10** — Executing a chained command plan with an empty list of steps
returns a failed result with error message `"No commands to execute"` rather
than a vacuous success (the empty check precedes even the cancellation
check). -/
theorem claim_C10_emptyChainFails (initCancel : Bool)
    (spawnAt : Nat → SpawnBehavior) (topCancel : Nat → Bool)
    (stepCancel : Nat → Nat → Bool)
    (shellSpawn : SpawnBehavior) (shellCancel : Nat → Bool)
    (shellBuiltins : List String) :
    executeChainedCommands initCancel spawnAt topCancel stepCancel
        shellSpawn shellCancel shellBuiltins [] =
      ⟨false, some noCommandsMessage, none, false⟩ := rfl

/-- **C9** — `run_cancellable_command` is total: every invocation returns a
`SubprocessResult`.  A cancellation observed before start yields return code
−1 with the cancelled-by-user message as stderr; an exception while spawning
or running yields return code −1 with the exception text as stderr; a
cancellation observed at a liveness-poll tick yields return code −1 with the
cancelled-by-user message; otherwise the process result is returned as is. -/
theorem claim_C9_runCancellableTotal (command : PyCmd) (shell : Bool)
    (spawn : SpawnBehavior) (cancel : Nat → Bool) :
    (cancel 0 = true →
      runCancellableCommand command shell spawn cancel =
        ⟨-1, "", cancelledByUserMessage, cmdStr command shell⟩) ∧
    (∀ msg, cancel 0 = false → spawn = .raises msg →
      runCancellableCommand command shell spawn cancel =
        ⟨-1, "", msg, cmdStr command shell⟩) ∧
    (∀ ticks rc out err, cancel 0 = false → spawn = .runs ticks rc out err →
      ((∃ k, k < ticks ∧ cancel (k + 1) = true) →
        runCancellableCommand command shell spawn cancel =
          ⟨-1, "", cancelledByUserMessage, cmdStr command shell⟩) ∧
      ((∀ k, k < ticks → cancel (k + 1) = false) →
        runCancellableCommand command shell spawn cancel =
          ⟨rc, out, err, cmdStr command shell⟩)) := by
  refine ⟨?_, ?_, ?_⟩
  · intro h
    simp [runCancellableCommand, h]
  · intro msg h0 hs
    subst hs
    simp [runCancellableCommand, h0]
  · intro ticks rc out err h0 hs
    subst hs
    constructor
    · rintro ⟨k, hk, hc⟩
      have hne : (List.range ticks).find? (fun k => cancel (k + 1)) ≠ none := by
        intro hnone
        rw [List.find?_eq_none] at hnone
        exact absurd hc (by simpa using hnone k (List.mem_range.mpr hk))
      rcases hfind : (List.range ticks).find? (fun k => cancel (k + 1)) with _ | v
      · exact absurd hfind hne
      · simp [runCancellableCommand, h0, hfind]
    · intro hall
      have hnone : (List.range ticks).find? (fun k => cancel (k + 1)) = none := by
        rw [List.find?_eq_none]
        intro x hx
        simpa using hall x (List.mem_range.mp hx)
      simp [runCancellableCommand, h0, hnone]

/-- Witness for C9: a process that stays alive for one poll tick with no
cancellation requested completes normally. -/
theorem claim_C9_runCancellableTotal_witness :
    runCancellableCommand (.list ["echo", "ok"]) false
        (.runs 1 0 "ok" "") (fun _ => false) =
      ⟨0, "ok", "", "echo ok"⟩ := by
  have h := ((claim_C9_runCancellableTotal (.list ["echo", "ok"]) false
    (.runs 1 0 "ok" "") (fun _ => false)).2.2 1 0 "ok" "" rfl rfl).2
    (fun _ _ => rfl)
  rw [h]
  decide

/-! ## Command parsing (`converters/helpers/commands.py`)

`shlex.split` / `shlex.join` are the Python standard library in POSIX mode;
they are modelled as single-character lexers (structural recursion, so that
concrete runs evaluate).  Comment characters and backslash-newline
continuations are not exercised by any template and are treated as ordinary
characters. -/

/-- The single-quote character. -/
def squoteChar : Char := Char.ofNat 39

/-- Lexer state for the `shlex.split` model: outside quotes, inside single
quotes, inside double quotes, and the two pending-escape states. -/
inductive LexMode where
  | normal
  | single
  | double
  | escNormal
  | escDouble
deriving DecidableEq, Repr

/-- POSIX `shlex.split` on the character list.  `cur` is the token under
construction (`none` when no token is open, so that an empty quoted token
still yields `""`).  An unbalanced quote or a trailing escape character
raises `ValueError`, modelled as `none`. -/
def shlexAux : List Char → LexMode → Option (List Char) → List String →
    Option (List String)
  | [], .normal, cur, acc =>
    some ((match cur with
           | some t => String.mk t :: acc
           | none => acc).reverse)
  | [], _, _, _ => none
  | c :: rest, .normal, cur, acc =>
    if c.isWhitespace then
      match cur with
      | some t => shlexAux rest .normal none (String.mk t :: acc)
      | none => shlexAux rest .normal none acc
    else if c = squoteChar then
      shlexAux rest .single (some (cur.getD [])) acc
    else if c = '"' then
      shlexAux rest .double (some (cur.getD [])) acc
    else if c = '\\' then
      shlexAux rest .escNormal (some (cur.getD [])) acc
    else
      shlexAux rest .normal (some (cur.getD [] ++ [c])) acc
  | c :: rest, .single, cur, acc =>
    if c = squoteChar then shlexAux rest .normal cur acc
    else shlexAux rest .single (some (cur.getD [] ++ [c])) acc
  | c :: rest, .double, cur, acc =>
    if c = '"' then shlexAux rest .normal cur acc
    else if c = '\\' then shlexAux rest .escDouble cur acc
    else shlexAux rest .double (some (cur.getD [] ++ [c])) acc
  | c :: rest, .escNormal, cur, acc =>
    shlexAux rest .normal (some (cur.getD [] ++ [c])) acc
  | c :: rest, .escDouble, cur, acc =>
    if c = '"' || c = '\\' then
      shlexAux rest .double (some (cur.getD [] ++ [c])) acc
    else
      shlexAux rest .double (some (cur.getD [] ++ ['\\', c])) acc

/-- Python `shlex.split`. -/
def shlexSplit (s : String) : Option (List String) :=
  shlexAux s.data .normal none []

/-- The redirection operators checked individually by `is_shell_command`. -/
def redirectionOps : List String := [">", ">>", "<", "<<"]

/-- `CommandParser.is_shell_command` (commands.py lines 36-76): `&&` or `||`
anywhere in the string, a pipe surrounded by spaces, or a redirection
operator surrounded by spaces (also at the stripped start or end).  The `try`
body raises no exception, so the `except` fallback is unreachable; quoting is
not inspected. -/
def isShellCommand (command : String) : Bool :=
  if strContains command "&&" || strContains command "||" then true
  else if strContains command " | " then true
  else if redirectionOps.any (fun op =>
      strContains command (" " ++ op ++ " ")
      || strEnds (pyRStrip command) (" " ++ op)
      || strStarts (pyLStrip command) (op ++ " ")) then true
  else false

/-- `CommandParser.parse_command`: a non-shell command is tokenized with
`shlex.split` (whose `ValueError` propagates, hence `Option`); a shell
command becomes the two-element `[first_tool, command]` form. -/
def parseCommand (s : String) : Option (List String × Bool) :=
  if !isShellCommand s then
    (shlexSplit s).map (fun l => (l, false))
  else
    some ([(match pySplitWs s with | [] => "sh" | w :: _ => w), s], true)

/-- `CommandParser.split_chained_commands`: split on `" && "` and strip. -/
def splitChainedCommands (s : String) : List String :=
  (splitOnStr " && " s).map pyStrip

/-- The triple returned by `TemplateProcessor._parse_command_string`. -/
structure ParsedCommand where
  commandList : List String
  chained : List (List String)
  isShell : Bool
deriving Repr, DecidableEq

/-- `TemplateProcessor._parse_command_string` (template_processor.py lines
197-238): empty input parses to the empty command; a `&&` chain is split and
each part parsed by `parse_command` (exceptions propagate out of this
branch); otherwise a shell command keeps its `[first_tool, command]` form and
a plain command is tokenized, with tokenizer errors collapsing to the empty
command under the local `try`. -/
def parseCommandString (s : String) : Option ParsedCommand :=
  if pyStrip s = "" then some ⟨[], [], false⟩
  else if strContains s "&&" then
    ((splitChainedCommands s).mapM parseCommand).map (fun ps =>
      let chained := (ps.map Prod.fst).filter (fun c => c ≠ [])
      ⟨chained.headD [], chained, false⟩)
  else if isShellCommand s then
    some ⟨[(match pySplitWs s with | [] => "sh" | w :: _ => w), s], [], true⟩
  else
    match shlexSplit s with
    | some l => some ⟨l, [], false⟩
    | none => some ⟨[], [], false⟩

/-! ## Template placeholder substitution (`CommandParser.format_template`)

Paths are plain strings; `pathlib` accessors `name`, `stem`, `parent` are
modelled on the string (normal relative/absolute file paths, no trailing
slash). -/

/-- `pathlib.Path(...).name` — the last `/`-separated component. -/
def pathBaseName (p : String) : String :=
  (splitOnChar '/' p).getLastD ""

/-- `pathlib.Path(name).suffix` — the part of a file name from the last dot
on, empty when the dot is leading or trailing or absent. -/
def pathSuffix (name : String) : String :=
  let parts := splitOnChar '.' name
  if parts.length ≤ 1 then ""
  else
    let last := parts.getLastD ""
    let stem := String.intercalate "." parts.dropLast
    if stem ≠ "" && last ≠ "" then "." ++ last else ""

/-- `pathlib.Path(p).stem` — the base name with its (last) suffix removed. -/
def pathStemOf (p : String) : String :=
  let n := pathBaseName p
  if pathSuffix n = "" then n else n.take (n.length - (pathSuffix n).length)

/-- `pathlib.Path(p).parent` as a string. -/
def pathParent (p : String) : String :=
  let parts := splitOnChar '/' p
  if parts.length ≤ 1 then "."
  else
    let d := String.intercalate "/" parts.dropLast
    if d = "" then "/" else d

/-- The opening-brace and closing-brace characters. -/
def obraceChar : Char := Char.ofNat 123

/-- The closing-brace character. -/
def cbraceChar : Char := Char.ofNat 125

/-- Python `str.format` restricted to plain `\x7bkey\x7d` placeholders, as used
by the command templates: each placeholder is replaced by its value; an
unknown key (`KeyError`) or an unbalanced brace (`ValueError`) raises,
modelled as `none`.  The second argument accumulates the key being read once
an opening brace has been seen. -/
def substPlaceholders (args : List (String × String)) :
    List Char → Option (List Char) → Option (List Char)
  | [], none => some []
  | [], some _ => none
  | c :: rest, none =>
    if c = obraceChar then substPlaceholders args rest (some [])
    else (substPlaceholders args rest none).map (fun t => c :: t)
  | c :: rest, some keyAcc =>
    if c = cbraceChar then
      match args.lookup (String.mk keyAcc.reverse) with
      | some v => (substPlaceholders args rest none).map (fun t => v.data ++ t)
      | none => none
    else substPlaceholders args rest (some (c :: keyAcc))

/-- The argument table built by `format_template` from the input/output/temp
paths (commands.py lines 188-217); `None` arguments contribute nothing. -/
def formatArgsFor (input output tempFile tempDir : Option String) :
    List (String × String) :=
  (match input with
   | some i => [("input", i), ("input_name", pathBaseName i),
                ("input_stem", pathStemOf i)]
   | none => []) ++
  (match output with
   | some o => [("output", o), ("output_dir", pathParent o)]
   | none => []) ++
  (match tempFile with
   | some t => [("temp_file", t)]
   | none => []) ++
  (match tempDir with
   | some t => [("temp_dir", t)]
   | none => [])

/-- `CommandParser.format_template`. -/
def formatTemplateStr (input output tempFile tempDir : Option String)
    (template : String) : Option String :=
  (substPlaceholders (formatArgsFor input output tempFile tempDir)
    template.data none).map String.mk

/-! ## Claim C3 — shell-vs-argv classification -/

/-- Modelled from the spec claim: a segment "requires shell execution if it
contains a pipe, logical AND/OR, or redirection operator that is not itself
inside quotes".  A character is inside quotes when it lies in a single- or
double-quoted region (delimiters included); the predicate holds when some
operator occurrence starts at an unquoted position. -/
def quoteFlags : List Char → Option Char → List Bool
  | [], _ => []
  | c :: rest, none =>
    if c = squoteChar || c = '"' then true :: quoteFlags rest (some c)
    else false :: quoteFlags rest none
  | c :: rest, some q =>
    if c = q then true :: quoteFlags rest none
    else true :: quoteFlags rest (some q)

/-- Modelled from the spec claim (see `quoteFlags`): some shell operator
occurs at a position that is not inside quotes. -/
def specRequiresShellUnquoted (s : String) : Bool :=
  let chars := s.data
  let flags := quoteFlags chars none
  (List.range chars.length).any (fun i =>
    flags.getD i true = false
    && ["|", "&&", "||", ">", ">>", "<", "<<"].any
         (fun op => op.data.isPrefixOf (chars.drop i)))

/-- **C3 counterexample** — `echo "a && b"` contains its only shell operator
inside double quotes, so by the claim it must not be classified as requiring
shell execution; `is_shell_command` nevertheless returns true (it searches
for `&&` without inspecting quotes). -/
theorem claim_C3_counterexample :
    isShellCommand "echo \"a && b\"" = true ∧
    specRequiresShellUnquoted "echo \"a && b\"" = false := by
  constructor
  · decide
  · decide

/-- The classification rule `is_shell_command` actually implements, stated
declaratively: `&&` or `||` anywhere (quotes are not inspected), a pipe
surrounded by spaces, or a redirection operator surrounded by spaces (also at
the stripped start or end of the segment). -/
def actualShellRule (s : String) : Prop :=
  strContains s "&&" = true ∨ strContains s "||" = true ∨
  strContains s " | " = true ∨
  ∃ op ∈ redirectionOps,
    strContains s (" " ++ op ++ " ") = true ∨
    strEnds (pyRStrip s) (" " ++ op) = true ∨
    strStarts (pyLStrip s) (op ++ " ") = true

/-- **C3 (amended)** — A compiled segment is classified as requiring shell
execution iff it contains `&&` or `||` anywhere (even inside quotes), a pipe
surrounded by spaces, or a space-delimited redirection operator (also at the
stripped start or end); quoting is not taken into account.  Otherwise it is
tokenized into an argv list: `"convert \x7binput\x7d \x7boutput\x7d"` with input
`a.jpg`, output `b.png` compiles to the argv list
`["convert", "a.jpg", "b.png"]`, and `"a \x7binput\x7d > \x7boutput\x7d"` compiles
to a shell-executed single segment. -/
theorem claim_C3_amended :
    (∀ s, isShellCommand s = true ↔ actualShellRule s) ∧
    (∀ s l, isShellCommand s = false → shlexSplit s = some l →
      parseCommandString s = some ⟨l, [], false⟩ ∨ pyStrip s = "") ∧
    formatTemplateStr (some "a.jpg") (some "b.png") none none
      "convert {input} {output}" = some "convert a.jpg b.png" ∧
    parseCommandString "convert a.jpg b.png" =
      some ⟨["convert", "a.jpg", "b.png"], [], false⟩ ∧
    formatTemplateStr (some "a.jpg") (some "b.png") none none
      "a {input} > {output}" = some "a a.jpg > b.png" ∧
    parseCommandString "a a.jpg > b.png" =
      some ⟨["a", "a a.jpg > b.png"], [], true⟩ := by
  refine ⟨?_, ?_, by decide, by decide, by decide, by decide⟩
  · intro s
    unfold isShellCommand actualShellRule
    constructor
    · intro h
      by_cases h1 : strContains s "&&" || strContains s "||"
      · rcases Bool.or_eq_true_iff.mp h1 with h2 | h2
        · exact Or.inl h2
        · exact Or.inr (Or.inl h2)
      · rw [if_neg h1] at h
        by_cases h2 : strContains s " | " = true
        · exact Or.inr (Or.inr (Or.inl h2))
        · rw [if_neg h2] at h
          by_cases h3 : redirectionOps.any (fun op =>
              strContains s (" " ++ op ++ " ")
              || strEnds (pyRStrip s) (" " ++ op)
              || strStarts (pyLStrip s) (op ++ " ")) = true
          · rcases List.any_eq_true.mp h3 with ⟨op, hop, hcond⟩
            refine Or.inr (Or.inr (Or.inr ⟨op, hop, ?_⟩))
            rcases Bool.or_eq_true_iff.mp hcond with h4 | h4
            · rcases Bool.or_eq_true_iff.mp h4 with h5 | h5
              · exact Or.inl h5
              · exact Or.inr (Or.inl h5)
            · exact Or.inr (Or.inr h4)
          · rw [if_neg h3] at h
            exact absurd h (by simp)
    · intro h
      rcases h with h | h | h | ⟨op, hop, hcond⟩
      · simp [h]
      · simp [h]
      · rcases hb : (strContains s "&&" || strContains s "||") with _ | _
        · simp [hb, h]
        · simp [hb]
      · rcases hb : (strContains s "&&" || strContains s "||") with _ | _
        · rcases hp : strContains s " | " with _ | _
          · rw [if_neg (by simp [hb]), if_neg (by simp [hp]), if_pos]
            exact List.any_eq_true.mpr ⟨op, hop, by
              rcases hcond with h4 | h4 | h4 <;> simp [h4]⟩
          · simp [hb, hp]
        · simp [hb]
  · intro s l hshell hsplit
    by_cases hempty : pyStrip s = ""
    · exact Or.inr hempty
    · left
      unfold parseCommandString
      rw [if_neg hempty]
      have hcc : strContains s "&&" = false := by
        by_contra hc
        have hc2 : strContains s "&&" = true := by
          cases hx : strContains s "&&"
          · exact absurd hx hc
          · rfl
        unfold isShellCommand at hshell
        rw [if_pos (by simp [hc2])] at hshell
        exact absurd hshell (by simp)
      rw [if_neg (by simp [hcc]), if_neg (by simp [hshell]), hsplit]

/-- Witness for the amended C3: the `is_shell_command` characterization at
the redirection example, obtained from the theorem. -/
theorem claim_C3_amended_witness :
    isShellCommand "a a.jpg > b.png" = true ↔ actualShellRule "a a.jpg > b.png" :=
  claim_C3_amended.1 "a a.jpg > b.png"

/-! ## Format configuration (`config/formats.py`)

Python `.upper()` / `.lower()` are modelled as character maps on the
underlying list (ASCII format tags; identical to `String.toUpper` /
`String.toLower`, see `pyUpper_eq_toUpper`). -/

/-- Python `s.upper()`. -/
def pyUpper (s : String) : String :=
  ⟨s.data.map Char.toUpper⟩

/-- Python `s.lower()`. -/
def pyLower (s : String) : String :=
  ⟨s.data.map Char.toLower⟩

theorem pyUpper_eq_toUpper (s : String) : pyUpper s = s.toUpper := by
  rw [String.toUpper, String.map_eq]
  rfl

theorem pyUpper_idem (s : String) : pyUpper (pyUpper s) = pyUpper s := by
  simp only [pyUpper, List.map_map]
  congr 1
  apply List.map_congr_left
  intro c _
  exact char_toUpper_idem c

/-- A `special_rules` settings entry: `from`/`to` tags and whether a
`command` value is present (rules without a command are skipped when the
`ConversionRule` list is built, but still count for the
`user_allowed_targets` restriction override). -/
structure SpecialRule where
  fromF : String
  toF : String
  hasCommand : Bool
deriving Repr, DecidableEq

/-- A `conversion_exclusions` settings entry (its `reason` field is
UI-only). -/
structure ExclusionRule where
  fromF : String
  toF : String
deriving Repr, DecidableEq

/-- The merged settings data consumed by `FormatConfiguration`: special
rules, output-restricted formats, per-pair exclusions, the
`use_canonical_formats` flag (code default `True`) and the `format_aliases`
table.  The shipped `settings.json` is external data; theorems quantify over
it. -/
structure FormatSettings where
  specialRules : List SpecialRule
  outputRestricted : List String
  exclusions : List ExclusionRule
  useCanonical : Bool
  aliases : List (String × String)
deriving Repr, DecidableEq

/-- A format group of `_initialize_format_groups`; `default_converter` and
`default_formats` are omitted (no claim depends on them),
`internal_conversions` is the dataclass default `True` for every group. -/
structure FormatGroupM where
  name : String
  formats : List String
  internalConversions : Bool
deriving Repr, DecidableEq

/-- The hard-coded groups of `_initialize_format_groups` (formats.py lines
115-264).  The groups' member sets are pairwise disjoint, so the
format-to-group mapping built by `_build_format_mapping` is equivalent to a
first-match search. -/
def formatGroups : List FormatGroupM :=
  [⟨"ARCHIVE", ["7Z", "DEB", "DMG", "ISO", "RAR", "RPM", "TAR", "TAR.BZ2",
     "TAR.GZ", "TAR.LZMA", "TAR.LZO", "TAR.XZ", "TGZ", "ZIP"], true⟩,
   ⟨"AUDIO", ["AAC", "AC3", "AIFF", "ALAC", "CAF", "FLAC", "M4A", "MKA",
     "MP3", "OGG", "OPUS", "WAV", "WMA"], true⟩,
   ⟨"DATA", ["JSON", "TXT", "YAML", "YML"], true⟩,
   ⟨"IMAGE", ["AVIF", "BMP", "CR2", "GIF", "HEIC", "HEIF", "ICO", "JPEG",
     "JPG", "PNG", "RAW", "SVG", "TIF", "TIFF", "WEBP"], true⟩,
   ⟨"MARKUP", ["HTM", "HTML", "MD", "XML"], true⟩,
   ⟨"OFFICE", ["DOC", "DOCX", "EPUB", "MOBI", "ODT", "PDF", "RTF"], true⟩,
   ⟨"PRESENTATION", ["ODP", "PPT", "PPTX"], true⟩,
   ⟨"SPREADSHEET", ["CSV", "ODS", "XLS", "XLSX"], true⟩,
   ⟨"VIDEO", ["AVI", "M4V", "MKV", "MOV", "MP4", "MPG", "MPEG", "MTS", "TS",
     "WEBM", "WMV"], true⟩]

/-- `FormatConfiguration.get_format_group`, as the group itself. -/
def findGroup (f : String) : Option FormatGroupM :=
  formatGroups.find? (fun g => g.formats.contains (pyUpper f))

/-- `FormatConfiguration.get_canonical_format`: resolve through the
`format_aliases` table after upper-casing, identity for unknown tags. -/
def getCanonicalFormat (aliases : List (String × String)) (f : String) : String :=
  (aliases.lookup (pyUpper f)).getD (pyUpper f)

/-- `FormatConfiguration._setup_special_rules`: upper-case the tags and keep
only entries with nonempty `from`, `to` and a `command`. -/
def conversionRules (cfg : FormatSettings) : List SpecialRule :=
  (cfg.specialRules.map (fun r => ⟨pyUpper r.fromF, pyUpper r.toF, r.hasCommand⟩)).filter
    (fun r => r.fromF ≠ "" && r.toF ≠ "" && r.hasCommand)

/-- `FormatConfiguration.get_available_formats` (formats.py lines 348-420):
group members (minus the source) when the group allows internal conversions,
plus declared rule targets, minus restricted formats not specially allowed,
minus exclusions not specially allowed; under canonicalization the set is
mapped through `get_canonical_format` and the canonical source removed.  The
source returns the result as a sorted tuple; the set of members is modelled
(no claim depends on the ordering). -/
def getAvailableFormats (cfg : FormatSettings) (sourceFormat : String) : Finset String :=
  let source := pyUpper sourceFormat
  let fromGroup : Finset String :=
    match formatGroups.find? (fun g => g.formats.contains source) with
    | some g => if g.internalConversions then g.formats.toFinset.erase source else ∅
    | none => ∅
  let withRules : Finset String :=
    fromGroup ∪
      (((conversionRules cfg).filter (fun r => pyUpper r.fromF == source)).map
        (fun r => pyUpper r.toF)).toFinset
  let userAllowed : Finset String :=
    ((cfg.specialRules.filter (fun r => pyUpper r.fromF == source)).map
      (fun r => pyUpper r.toF)).toFinset
  let restricted : Finset String := (cfg.outputRestricted.map pyUpper).toFinset
  let afterRestricted := withRules \ (restricted \ userAllowed)
  let afterExclusions := cfg.exclusions.foldl (fun acc ex =>
    if pyUpper ex.fromF == source && !(decide (pyUpper ex.toF ∈ userAllowed)) then
      acc.erase (pyUpper ex.toF)
    else acc) afterRestricted
  if !cfg.useCanonical then afterExclusions
  else
    (afterExclusions.image (getCanonicalFormat cfg.aliases)).erase
      (getCanonicalFormat cfg.aliases source)

/-- `FormatValidator._get_cross_format_conversions`: the source formats of
the batch that some batch source format can produce. -/
def crossFormatConversions (cfg : FormatSettings) (sources : List String) : Finset String :=
  if sources.length ≤ 1 then ∅
  else
    sources.toFinset ∩
      sources.foldl (fun acc f => acc ∪ getAvailableFormats cfg f) ∅

/-- `FormatValidator.get_common_formats` (format_validator.py lines 72-118):
the intersection of the individual available-target sets, augmented with the
cross-format conversions when the batch has more than one source format (the
caller passes `list(set(...))`, so the list elements are distinct).  The
source returns the result sorted; the set of members is modelled. -/
def getCommonFormatsSet (cfg : FormatSettings) (sources : List String) : Finset String :=
  match sources with
  | [] => ∅
  | s :: rest =>
    let inter := rest.foldl (fun acc f => acc ∩ getAvailableFormats cfg f)
      (getAvailableFormats cfg s)
    if 1 < (s :: rest).length then
      inter ∪ crossFormatConversions cfg (s :: rest)
    else inter

/-! ## Well-formedness of the alias table

Modelled from the spec: the shipped `settings.json` (the concrete
`format_aliases` contents) is not under `src/`.  Per the spec's data model, a
`FormatAliasTable` maps alias tags to canonical representative tags (e.g.
`JPG → JPEG`): its values are upper-case tags that are not themselves
aliases. -/

/-- The alias table maps into canonical tags: every value is upper-case and
not itself a key. -/
def aliasTableCanonical (aliases : List (String × String)) : Prop :=
  ∀ p ∈ aliases, pyUpper p.2 = p.2 ∧ aliases.lookup p.2 = none

theorem pair_mem_of_lookup_eq_some {l : List (String × String)} {k v : String}
    (h : l.lookup k = some v) : (k, v) ∈ l := by
  obtain ⟨l₁, l₂, rfl, -⟩ := List.lookup_eq_some_iff.mp h
  simp

/-- Canonicalization through a canonical-valued alias table is idempotent. -/
theorem getCanonicalFormat_idem (aliases : List (String × String))
    (h : aliasTableCanonical aliases) (f : String) :
    getCanonicalFormat aliases (getCanonicalFormat aliases f) =
      getCanonicalFormat aliases f := by
  unfold getCanonicalFormat
  cases hl : aliases.lookup (pyUpper f) with
  | none =>
    simp only [hl, Option.getD_none, pyUpper_idem, hl]
  | some v =>
    obtain ⟨hup, hnone⟩ := h (pyUpper f, v) (pair_mem_of_lookup_eq_some hl)
    simp only [hl, Option.getD_some, hup, hnone, Option.getD_none]

/-- Any value of `getCanonicalFormat` is a fixed point of it (canonical-valued
table). -/
theorem getCanonicalFormat_fixed (aliases : List (String × String))
    (h : aliasTableCanonical aliases) (x : String) :
    getCanonicalFormat aliases (getCanonicalFormat aliases x) =
      getCanonicalFormat aliases x :=
  getCanonicalFormat_idem aliases h x

/-- Self-exclusion: with canonicalization enabled and a canonical-valued
alias table, a format never appears among its own available targets. -/
theorem self_not_available (cfg : FormatSettings)
    (hcanon : cfg.useCanonical = true)
    (halias : aliasTableCanonical cfg.aliases) (f : String) :
    f ∉ getAvailableFormats cfg f := by
  intro hf
  unfold getAvailableFormats at hf
  rw [hcanon] at hf
  simp only [Bool.not_true, Bool.false_eq_true, if_false] at hf
  rw [Finset.mem_erase] at hf
  obtain ⟨hne, hmem⟩ := hf
  rw [Finset.mem_image] at hmem
  obtain ⟨x, _, hφx⟩ := hmem
  have hφf : getCanonicalFormat cfg.aliases f = f := by
    rw [← hφx]
    exact getCanonicalFormat_fixed cfg.aliases halias x
  apply hne
  have hup : getCanonicalFormat cfg.aliases (pyUpper f) =
      getCanonicalFormat cfg.aliases f := by
    unfold getCanonicalFormat
    rw [pyUpper_idem]
  rw [hup, hφf]

/-- Membership in the folded intersection of available-target sets. -/
theorem mem_foldl_inter (cfg : FormatSettings) (t : String) :
    ∀ (l : List String) (init : Finset String),
      (t ∈ l.foldl (fun acc f => acc ∩ getAvailableFormats cfg f) init ↔
        t ∈ init ∧ ∀ f ∈ l, t ∈ getAvailableFormats cfg f) := by
  intro l
  induction l with
  | nil => intro init; simp
  | cons a rest ih =>
    intro init
    rw [List.foldl_cons, ih]
    simp only [Finset.mem_inter, List.mem_cons]
    constructor
    · rintro ⟨⟨h1, h2⟩, h3⟩
      exact ⟨h1, fun f hf => hf.elim (fun he => he ▸ h2) (h3 f)⟩
    · rintro ⟨h1, h2⟩
      exact ⟨⟨h1, h2 a (Or.inl rfl)⟩, fun f hf => h2 f (Or.inr hf)⟩

/-- Membership in the folded union of available-target sets. -/
theorem mem_foldl_union (cfg : FormatSettings) (t : String) :
    ∀ (l : List String) (init : Finset String),
      (t ∈ l.foldl (fun acc f => acc ∪ getAvailableFormats cfg f) init ↔
        t ∈ init ∨ ∃ f ∈ l, t ∈ getAvailableFormats cfg f) := by
  intro l
  induction l with
  | nil => intro init; simp
  | cons a rest ih =>
    intro init
    rw [List.foldl_cons, ih]
    simp only [Finset.mem_union, List.mem_cons]
    constructor
    · rintro (⟨h1 | h1⟩ | ⟨f, hf, hmem⟩)
      · exact Or.inl h1
      · exact Or.inr ⟨a, Or.inl rfl, h1⟩
      · exact Or.inr ⟨f, Or.inr hf, hmem⟩
    · rintro (h1 | ⟨f, hf | hf, hmem⟩)
      · exact Or.inl (Or.inl h1)
      · exact Or.inl (Or.inr (hf ▸ hmem))
      · exact Or.inr ⟨f, hf, hmem⟩

/-- **C2** — With canonicalization enabled and a canonical-valued alias table
(the shipped configuration), the available-target set of a batch with more
than one (distinct) source format consists of the targets reachable from all
source formats together with every batch source format reachable from at
least one other source format of the batch; a single-format batch gets
exactly that format's own available-target set, with no augmentation. -/
theorem claim_C2_batchTargets (cfg : FormatSettings)
    (hcanon : cfg.useCanonical = true)
    (halias : aliasTableCanonical cfg.aliases) :
    (∀ sources : List String, 1 < sources.length → ∀ t : String,
      (t ∈ getCommonFormatsSet cfg sources ↔
        (∀ s ∈ sources, t ∈ getAvailableFormats cfg s) ∨
        (t ∈ sources ∧
          ∃ s ∈ sources, s ≠ t ∧ t ∈ getAvailableFormats cfg s))) ∧
    (∀ s : String, getCommonFormatsSet cfg [s] = getAvailableFormats cfg s) := by
  constructor
  · intro sources hlen t
    match sources, hlen with
    | s :: rest, hlen =>
      rw [getCommonFormatsSet]
      rw [if_pos hlen]
      rw [Finset.mem_union]
      rw [mem_foldl_inter cfg t rest (getAvailableFormats cfg s)]
      rw [crossFormatConversions, if_neg (by omega)]
      rw [Finset.mem_inter, List.mem_toFinset]
      rw [mem_foldl_union cfg t (s :: rest) ∅]
      constructor
      · rintro (⟨h1, h2⟩ | ⟨hsrc, hmem⟩)
        · refine Or.inl (fun f hf => ?_)
          rcases List.mem_cons.mp hf with he | he
          · exact he ▸ h1
          · exact h2 f he
        · rcases hmem with hemp | ⟨f, hf, hav⟩
          · exact absurd hemp (Finset.not_mem_empty t)
          · refine Or.inr ⟨hsrc, f, hf, ?_, hav⟩
            intro he
            exact self_not_available cfg hcanon halias t (he ▸ hav)
      · rintro (h | ⟨hsrc, f, hf, _, hav⟩)
        · exact Or.inl ⟨h s (List.mem_cons_self s rest),
            fun f hf => h f (List.mem_cons_of_mem s hf)⟩
        · exact Or.inr ⟨hsrc, Or.inr ⟨f, hf, hav⟩⟩
  · intro s
    rw [getCommonFormatsSet]
    simp

/-- Witness for C2: the spec's example — `AVI` and `MP4` are both `VIDEO`
formats (and a special rule `AVI → MP4` is declared), so `MP4` is an
available batch target for `[AVI, MP4]` although `MP4 → MP4` itself is
self-excluded. -/
theorem claim_C2_batchTargets_witness :
    "MP4" ∈ getCommonFormatsSet
      ⟨[⟨"AVI", "MP4", true⟩], [], [], true, [("JPG", "JPEG"), ("TIF", "TIFF")]⟩
      ["AVI", "MP4"] := by
  have h := (claim_C2_batchTargets
    ⟨[⟨"AVI", "MP4", true⟩], [], [], true, [("JPG", "JPEG"), ("TIF", "TIFF")]⟩
    rfl (by unfold aliasTableCanonical; decide)).1 ["AVI", "MP4"] (by decide) "MP4"
  exact h.mpr (Or.inr (by decide))

/-- **C6 counterexample** — the claim asserts self-exclusion "regardless of
declared special rules, canonicalization mode, restrictions, or exclusions",
but with `use_canonical_formats = false` and a declared special rule
`MP4 → MP4`, `get_available_formats` returns a set containing `MP4` for the
source `MP4` (a member of the `VIDEO` group, whose `internal_conversions` is
true): the self-discard happens before rule targets are added and the
canonical-source discard is skipped. -/
theorem claim_C6_counterexample :
    "MP4" ∈ getAvailableFormats ⟨[⟨"MP4", "MP4", true⟩], [], [], false, []⟩ "MP4" := by
  decide

/-- **C6 (amended)** — For every format `f` of a group with
`internal_conversions = true`, `f` is not among its own available targets,
regardless of declared special rules, restrictions, or exclusions, provided
canonicalization is enabled (the code default) and the alias table is
canonical-valued. -/
theorem claim_C6_selfExcluded (cfg : FormatSettings) (f : String)
    (_hgroup : ∃ g ∈ formatGroups, pyUpper f ∈ g.formats ∧
      g.internalConversions = true)
    (hcanon : cfg.useCanonical = true)
    (halias : aliasTableCanonical cfg.aliases) :
    f ∉ getAvailableFormats cfg f :=
  self_not_available cfg hcanon halias f

/-- Witness for the amended C6: even with a declared rule `MP4 → MP4`, `MP4`
is not an available target of itself under canonicalization. -/
theorem claim_C6_selfExcluded_witness :
    "MP4" ∉ getAvailableFormats
      ⟨[⟨"MP4", "MP4", true⟩], [], [], true, [("JPG", "JPEG")]⟩ "MP4" :=
  claim_C6_selfExcluded ⟨[⟨"MP4", "MP4", true⟩], [], [], true, [("JPG", "JPEG")]⟩
    "MP4" (by decide) rfl (by unfold aliasTableCanonical; decide)

/-- **C8** — Canonicalization is idempotent: for every format string `f`,
`canonicalOf (canonicalOf f) = canonicalOf f`, given a format-alias table
whose values are canonical tags (upper-case, not themselves aliases), as the
configured table is. -/
theorem claim_C8_canonicalIdem (aliases : List (String × String))
    (halias : aliasTableCanonical aliases) (f : String) :
    getCanonicalFormat aliases (getCanonicalFormat aliases f) =
      getCanonicalFormat aliases f :=
  getCanonicalFormat_idem aliases halias f

/-- Witness for C8 at the documented alias pairs `JPG → JPEG`, `TIF → TIFF`
and the lower-case query `jpg`. -/
theorem claim_C8_canonicalIdem_witness :
    getCanonicalFormat [("JPG", "JPEG"), ("TIF", "TIFF")]
        (getCanonicalFormat [("JPG", "JPEG"), ("TIF", "TIFF")] "jpg") =
      getCanonicalFormat [("JPG", "JPEG"), ("TIF", "TIFF")] "jpg" :=
  claim_C8_canonicalIdem [("JPG", "JPEG"), ("TIF", "TIFF")]
    (by unfold aliasTableCanonical; decide) "jpg"

/-! ## File format detection and target naming
(`utils/validation.py`, `converters/helpers/file_manager.py`)

Files are identified by their name within one directory; the filesystem is
the finite list of existing names. -/

/-- Python `s[n:]` (character slicing). -/
def strDropChars (s : String) (n : Nat) : String :=
  ⟨s.data.drop n⟩

/-- Python `s[:k]` for `k = s.length - n` (drop the last `n` characters). -/
def strDropRightChars (s : String) (n : Nat) : String :=
  ⟨s.data.take (s.data.length - n)⟩

/-- Character-count length (Python `len`). -/
def strLen (s : String) : Nat :=
  s.data.length

/-- Insert a string into a list sorted by decreasing length. -/
def insertByLenDesc (x : String) : List String → List String
  | [] => [x]
  | y :: ys =>
    if strLen y ≤ strLen x then x :: y :: ys else y :: insertByLenDesc x ys

/-- Sort strings by decreasing length (Python
`sorted(..., key=len, reverse=True)`; ties in unspecified order — immaterial
here because two distinct same-length formats cannot both be a suffix of the
same file name). -/
def sortByLenDesc : List String → List String
  | [] => []
  | x :: xs => insertByLenDesc x (sortByLenDesc xs)

/-- The union of all group format sets, longest first, as computed inside
`FileValidator.get_file_format`. -/
def sortedKnownFormats : List String :=
  sortByLenDesc ((formatGroups.flatMap (fun g => g.formats)).dedup)

/-- `FileValidator.get_file_format` (validation.py lines 88-140): empty when
the name has no suffix; otherwise the longest registered format (compound
extensions included) matching the lower-cased name's end, falling back to the
upper-cased plain suffix. -/
def getFileFormat (name : String) : String :=
  if pathSuffix name = "" then ""
  else
    match sortedKnownFormats.find?
        (fun fmt => strEnds (pyLower name) ("." ++ pyLower fmt)) with
    | some fmt => fmt
    | none => pyUpper (strDropChars (pathSuffix name) 1)

/-- `FileValidator.get_base_name_and_extension` (validation.py lines
142-176): strip the recognized (possibly compound) extension, else fall back
to `stem`/`suffix`. -/
def getBaseNameAndExtension (name : String) : String × String :=
  let fmt := getFileFormat name
  if fmt ≠ "" then
    let ext := "." ++ pyLower fmt
    if strEnds (pyLower name) ext then
      (strDropRightChars name (strLen ext), ext)
    else (pathStemOf name, pathSuffix name)
  else (pathStemOf name, pathSuffix name)

/-- `FileManager.get_target_file` at the name level: the source's base name
with the target format's lower-case extension (the constructor upper-cases
the stored format first). -/
def getTargetFileName (sourceName targetFormat : String) : String :=
  (getBaseNameAndExtension sourceName).1 ++ "." ++ pyLower (pyUpper targetFormat)

/-- The candidate name `f"\x7bbase\x7d (\x7bcounter\x7d)\x7bextension\x7d"` tried by
`ensure_unique_filename`. -/
def uniqueCandidate (base ext : String) (k : Nat) : String :=
  base ++ " (" ++ Nat.repr k ++ ")" ++ ext

/-- The `while target_file.exists()` loop of `ensure_unique_filename`,
with explicit fuel: the source loop runs until a candidate is free, which on
a filesystem of `n` entries happens within `n + 1` candidates; the fuel-
exhausted value is never reached under that bound (see
`ensureUniqueAux_spec`). -/
def ensureUniqueAux (fs : List String) (base ext : String) :
    Nat → Nat → String
  | counter, 0 => uniqueCandidate base ext counter
  | counter, fuel + 1 =>
    if uniqueCandidate base ext counter ∈ fs then
      ensureUniqueAux fs base ext (counter + 1) fuel
    else uniqueCandidate base ext counter

/-- `FileManager.ensure_unique_filename` (file_manager.py lines 87-128). -/
def ensureUniqueFilename (fs : List String) (target : String) : String :=
  if target ∈ fs then
    ensureUniqueAux fs (getBaseNameAndExtension target).1
      (getBaseNameAndExtension target).2 1 (fs.length + 1)
  else target

/-- The uniqueness loop returns the first free candidate at or after the
starting counter, provided one exists within the fuel. -/
theorem ensureUniqueAux_spec (fs : List String) (base ext : String) :
    ∀ (fuel counter : Nat),
      (∃ d, d ≤ fuel ∧ uniqueCandidate base ext (counter + d) ∉ fs) →
      ∃ d, d ≤ fuel ∧ uniqueCandidate base ext (counter + d) ∉ fs ∧
        (∀ e, e < d → uniqueCandidate base ext (counter + e) ∈ fs) ∧
        ensureUniqueAux fs base ext counter fuel =
          uniqueCandidate base ext (counter + d) := by
  intro fuel
  induction fuel with
  | zero =>
    rintro counter ⟨d, hd, hfree⟩
    have hd0 : d = 0 := Nat.le_zero.mp hd
    subst hd0
    refine ⟨0, Nat.le_refl 0, hfree, ?_, ?_⟩
    · intro e he
      exact absurd he (Nat.not_lt_zero e)
    · rfl
  | succ f ih =>
    rintro counter ⟨d, hd, hfree⟩
    by_cases hc : uniqueCandidate base ext counter ∈ fs
    · have hdpos : d ≠ 0 := by
        intro h0
        subst h0
        exact hfree (by simpa using hc)
      obtain ⟨d1, rfl⟩ := Nat.exists_eq_succ_of_ne_zero hdpos
      have hx : ∃ e, e ≤ f ∧
          uniqueCandidate base ext (counter + 1 + e) ∉ fs := by
        refine ⟨d1, Nat.le_of_succ_le_succ hd, ?_⟩
        have harith : counter + 1 + d1 = counter + (d1 + 1) := by omega
        rw [harith]
        exact hfree
      obtain ⟨e, he, hefree, hemin, heq⟩ := ih (counter + 1) hx
      refine ⟨e + 1, Nat.succ_le_succ he, ?_, ?_, ?_⟩
      · have harith : counter + (e + 1) = counter + 1 + e := by omega
        rw [harith]
        exact hefree
      · intro e2 he2
        cases e2 with
        | zero => simpa using hc
        | succ e3 =>
          have harith : counter + (e3 + 1) = counter + 1 + e3 := by omega
          rw [harith]
          exact hemin e3 (by omega)
      · rw [ensureUniqueAux, if_pos hc, heq]
        congr 1
        omega
    · refine ⟨0, Nat.zero_le (f + 1), by simpa using hc, ?_, ?_⟩
      · intro e he
        exact absurd he (Nat.not_lt_zero e)
      · rw [ensureUniqueAux, if_neg hc]
        simp

/-! ### Injectivity of the candidate names

`Nat.repr` is injective (recovered by parsing the decimal digits back), so
the candidate names `base (k) ext` are pairwise distinct and a filesystem of
`n` entries cannot contain all of the first `n + 1` candidates. -/

/-- The decimal digits of `n`, most significant first. -/
def reprDigits (n : Nat) : List Char :=
  if n < 10 then [Nat.digitChar n]
  else reprDigits (n / 10) ++ [Nat.digitChar (n % 10)]
decreasing_by exact Nat.div_lt_self (by omega) (by omega)

/-- Parse decimal digits (most significant first) back into a number. -/
def readNatAux : Nat → List Char → Nat
  | acc, [] => acc
  | acc, c :: cs => readNatAux (acc * 10 + (c.toNat - 48)) cs

theorem readNatAux_append_last (c : Char) :
    ∀ (xs : List Char) (acc : Nat),
      readNatAux acc (xs ++ [c]) = readNatAux acc xs * 10 + (c.toNat - 48) := by
  intro xs
  induction xs with
  | nil => intro acc; rfl
  | cons x rest ih => intro acc; exact ih (acc * 10 + (x.toNat - 48))

theorem digitChar_toNat_sub (d : Nat) (h : d < 10) :
    (Nat.digitChar d).toNat - 48 = d := by
  interval_cases d <;> decide

theorem reprDigits_lt (n : Nat) (h : n < 10) : reprDigits n = [Nat.digitChar n] := by
  rw [reprDigits]
  rw [if_pos h]

theorem reprDigits_ge (n : Nat) (h : ¬ n < 10) :
    reprDigits n = reprDigits (n / 10) ++ [Nat.digitChar (n % 10)] := by
  rw [reprDigits]
  rw [if_neg h]

theorem readNatAux_cons (acc : Nat) (c : Char) (cs : List Char) :
    readNatAux acc (c :: cs) = readNatAux (acc * 10 + (c.toNat - 48)) cs := rfl

theorem readNatAux_nil (acc : Nat) : readNatAux acc [] = acc := rfl

theorem readNat_reprDigits (n : Nat) : readNatAux 0 (reprDigits n) = n := by
  induction n using Nat.strong_induction_on with
  | _ n ih =>
    by_cases h : n < 10
    · rw [reprDigits_lt n h, readNatAux_cons, digitChar_toNat_sub n h, readNatAux_nil]
      omega
    · rw [reprDigits_ge n h]
      rw [readNatAux_append_last]
      rw [ih (n / 10) (Nat.div_lt_self (by omega) (by omega))]
      rw [digitChar_toNat_sub (n % 10) (Nat.mod_lt n (by omega))]
      omega

theorem reprDigits_injective : Function.Injective reprDigits := by
  intro a b h
  have := readNat_reprDigits a
  rw [h, readNat_reprDigits b] at this
  omega

/-- `Nat.toDigitsCore` with enough fuel produces `reprDigits`. -/
theorem toDigitsCore_eq_reprDigits :
    ∀ (fuel n : Nat) (ds : List Char), n < fuel →
      Nat.toDigitsCore 10 fuel n ds = reprDigits n ++ ds := by
  intro fuel
  induction fuel with
  | zero => intro n ds h; omega
  | succ f ih =>
    intro n ds h
    rw [Nat.toDigitsCore]
    by_cases h10 : n / 10 = 0
    · have hn : n < 10 := by omega
      simp only [h10, if_true]
      rw [reprDigits_lt n hn, Nat.mod_eq_of_lt hn]
      rfl
    · simp only [h10, if_false]
      have hlt : n / 10 < f := by omega
      rw [ih (n / 10) (Nat.digitChar (n % 10) :: ds) hlt]
      rw [reprDigits_ge n (by omega)]
      simp

theorem nat_repr_injective : Function.Injective Nat.repr := by
  intro a b h
  have ha : Nat.repr a = (reprDigits a).asString := by
    show (Nat.toDigits 10 a).asString = _
    rw [Nat.toDigits, toDigitsCore_eq_reprDigits (a + 1) a [] (Nat.lt_succ_self a)]
    simp
  have hb : Nat.repr b = (reprDigits b).asString := by
    show (Nat.toDigits 10 b).asString = _
    rw [Nat.toDigits, toDigitsCore_eq_reprDigits (b + 1) b [] (Nat.lt_succ_self b)]
    simp
  rw [ha, hb] at h
  exact reprDigits_injective (List.asString_inj.mp h)

theorem uniqueCandidate_injective (base ext : String) :
    Function.Injective (uniqueCandidate base ext) := by
  intro a b h
  apply nat_repr_injective
  have hd := congrArg String.data h
  simp only [uniqueCandidate, String.data_append] at hd
  apply String.ext
  exact List.append_cancel_left (List.append_cancel_right
    (List.append_cancel_right hd))

/-- Pigeonhole: on a filesystem of `n` entries, some candidate among
`1, …, n + 1` is free. -/
theorem exists_free_candidate (fs : List String) (base ext : String) :
    ∃ d, d ≤ fs.length ∧ uniqueCandidate base ext (1 + d) ∉ fs := by
  by_contra hall
  push_neg at hall
  have hmaps : ∀ d ∈ Finset.range (fs.length + 1),
      uniqueCandidate base ext (1 + d) ∈ fs.toFinset := by
    intro d hd
    rw [List.mem_toFinset]
    exact hall d (by simpa using Nat.lt_succ_iff.mp (Finset.mem_range.mp hd))
  have hinj : Set.InjOn (fun d => uniqueCandidate base ext (1 + d))
      (Finset.range (fs.length + 1)) := by
    intro a _ b _ hab
    have := uniqueCandidate_injective base ext hab
    omega
  have hcard := Finset.card_le_card_of_injOn _ hmaps hinj
  rw [Finset.card_range] at hcard
  have := fs.toFinset_card_le
  omega

/-- **C5** — If the planned target name is free it is returned as is; if it
already exists, the uniqueness algorithm returns the candidate
`base (k).ext` for the least counter `k ≥ 1` whose name does not exist,
every smaller counter's candidate existing.  (The side condition — some
candidate among the first `n + 1` is free on a filesystem of `n` entries —
always holds since the candidates are pairwise distinct.) -/
theorem claim_C5_uniqueTargetNaming (fs : List String) (target : String) :
    (target ∉ fs → ensureUniqueFilename fs target = target) ∧
    (target ∈ fs → ∃ k, 1 ≤ k ∧
      uniqueCandidate (getBaseNameAndExtension target).1
        (getBaseNameAndExtension target).2 k ∉ fs ∧
      (∀ j, 1 ≤ j → j < k →
        uniqueCandidate (getBaseNameAndExtension target).1
          (getBaseNameAndExtension target).2 j ∈ fs) ∧
      ensureUniqueFilename fs target =
        uniqueCandidate (getBaseNameAndExtension target).1
          (getBaseNameAndExtension target).2 k) := by
  constructor
  · intro hnot
    rw [ensureUniqueFilename, if_neg hnot]
  · intro hmem
    have hx : ∃ e, e ≤ fs.length + 1 ∧
        uniqueCandidate (getBaseNameAndExtension target).1
          (getBaseNameAndExtension target).2 (1 + e) ∉ fs := by
      obtain ⟨d, hd, hfree⟩ := exists_free_candidate fs
        (getBaseNameAndExtension target).1 (getBaseNameAndExtension target).2
      exact ⟨d, by omega, hfree⟩
    obtain ⟨e, _, hefree, hemin, heq⟩ :=
      ensureUniqueAux_spec fs (getBaseNameAndExtension target).1
        (getBaseNameAndExtension target).2 (fs.length + 1) 1 hx
    refine ⟨1 + e, by omega, hefree, ?_, ?_⟩
    · intro j hj1 hj2
      obtain ⟨e2, rfl⟩ := Nat.exists_eq_add_of_le hj1
      exact hemin e2 (by omega)
    · rw [ensureUniqueFilename, if_pos hmem]
      exact heq

/-- Witness for C5: the spec's example — planning a `PNG` target for
`photo.jpg` when `photo.png` exists yields `photo (1).png`; when
`photo (1).png` also exists, `photo (2).png`. -/
theorem claim_C5_uniqueTargetNaming_witness :
    (("photo.png" : String) ∈ (["photo.jpg", "photo.png"] : List String) →
      ∃ k, 1 ≤ k ∧
        uniqueCandidate (getBaseNameAndExtension "photo.png").1
          (getBaseNameAndExtension "photo.png").2 k ∉
            (["photo.jpg", "photo.png"] : List String) ∧
        (∀ j, 1 ≤ j → j < k →
          uniqueCandidate (getBaseNameAndExtension "photo.png").1
            (getBaseNameAndExtension "photo.png").2 j ∈
              (["photo.jpg", "photo.png"] : List String)) ∧
        ensureUniqueFilename ["photo.jpg", "photo.png"] "photo.png" =
          uniqueCandidate (getBaseNameAndExtension "photo.png").1
            (getBaseNameAndExtension "photo.png").2 k) ∧
    getTargetFileName "photo.jpg" "PNG" = "photo.png" ∧
    ensureUniqueFilename ["photo.jpg", "photo.png"] "photo.png" =
      "photo (1).png" ∧
    ensureUniqueFilename ["photo.jpg", "photo.png", "photo (1).png"]
      "photo.png" = "photo (2).png" :=
  ⟨(claim_C5_uniqueTargetNaming ["photo.jpg", "photo.png"] "photo.png").2,
   by decide, by decide, by decide⟩

/-! ## Converter dispatch on the execution result
(`converters/base.py`, `Converter.convert`, lines 203-322)

After tool validation, `convert` branches on the `CommandExecutionResult`:
success returns `True` with no cleanup beyond the `finally`; a cancelled
result notifies, deletes the target file and returns `False` without
recording an error; any other failure records the error (and shows the
dialog outside batch mode) and deletes the target file.  The `finally`
releases the temp manager on every path.  The filesystem is the list of
existing names; `delete_target_file`'s retry/chmod handling collapses under
the error-free filesystem model, and its source-directory fallback is then
unreachable. -/

/-- `FileManager.delete_target_file` (file_manager.py lines 130-171) on the
error-free filesystem: the target no longer exists afterwards. -/
def deleteTargetFile (fs : List String) (target : String) : List String :=
  fs.filter (fun p => p ≠ target)

/-- Observable outcome of one `Converter.convert` run: the returned boolean,
the filesystem after it, whether the cancellation branch ran
(`handle_cancellation`), whether an error was recorded/reported, and whether
the `finally` cleanup of temp files ran. -/
structure ConvertOutcome where
  returnValue : Bool
  fsAfter : List String
  cancellationHandled : Bool
  errorRecorded : Bool
  tempCleaned : Bool
deriving Repr, DecidableEq

/-- The post-execution dispatch of `Converter.convert`. -/
def convertDispatch (fs : List String) (target : String)
    (result : CommandExecutionResult) : ConvertOutcome :=
  if result.success then ⟨true, fs, false, false, true⟩
  else if result.cancelled then
    ⟨false, deleteTargetFile fs target, true, false, true⟩
  else ⟨false, deleteTargetFile fs target, false, true, true⟩

/-- **C4** — A single conversion whose execution result is cancelled
(`cancelled = true`, `success = false`) deletes the partially-created target
file (it is absent from the resulting filesystem) and takes the cancellation
branch: `convert` returns false without recording or reporting an error, and
temp cleanup still runs. -/
theorem claim_C4_cancelDeletesTarget (fs : List String) (target : String)
    (result : CommandExecutionResult)
    (hs : result.success = false) (hc : result.cancelled = true) :
    (convertDispatch fs target result).returnValue = false ∧
    target ∉ (convertDispatch fs target result).fsAfter ∧
    (convertDispatch fs target result).cancellationHandled = true ∧
    (convertDispatch fs target result).errorRecorded = false ∧
    (convertDispatch fs target result).tempCleaned = true := by
  simp [convertDispatch, hs, hc, deleteTargetFile, List.mem_filter]

/-- Witness for C4: a cancelled run over a filesystem containing the
partially-written target `song.mp3`. -/
theorem claim_C4_cancelDeletesTarget_witness :
    (convertDispatch ["song.wav", "song.mp3"] "song.mp3"
        ⟨false, some cancelledByUserMessage, none, true⟩).returnValue = false ∧
    "song.mp3" ∉ (convertDispatch ["song.wav", "song.mp3"] "song.mp3"
        ⟨false, some cancelledByUserMessage, none, true⟩).fsAfter ∧
    (convertDispatch ["song.wav", "song.mp3"] "song.mp3"
        ⟨false, some cancelledByUserMessage, none, true⟩).cancellationHandled = true ∧
    (convertDispatch ["song.wav", "song.mp3"] "song.mp3"
        ⟨false, some cancelledByUserMessage, none, true⟩).errorRecorded = false ∧
    (convertDispatch ["song.wav", "song.mp3"] "song.mp3"
        ⟨false, some cancelledByUserMessage, none, true⟩).tempCleaned = true :=
  claim_C4_cancelDeletesTarget ["song.wav", "song.mp3"] "song.mp3"
    ⟨false, some cancelledByUserMessage, none, true⟩ rfl rfl

/-! ## Temp-resource lifecycle of template compilation
(`converters/helpers/template_processor.py`, `_process_template`, lines
110-195)

`_process_template` acquires a temp directory when the template contains
`\x7btemp_dir\x7d` and a temp file when it contains `\x7btemp_file\x7d` — both
assigned to the same local variable `temp_manager`, the second assignment
overwriting the first.  On success the final `temp_manager` is returned and
released once by `Converter.convert`'s `finally` (via
`FileManager.cleanup_temp_files`); on an exception the `except` clause
releases the same final `temp_manager` once.  Either way only the
last-acquired resource is ever released. -/

/-- The kind of a temp resource. -/
inductive TempKind where
  | dir
  | file
deriving DecidableEq, Repr

/-- The temp resources acquired while processing a template, in acquisition
order (`TempFileManager.__enter__` calls). -/
def templateAcquisitions (template : String) : List TempKind :=
  (if strContains template "{temp_dir}" then [TempKind.dir] else []) ++
  (if strContains template "{temp_file}" then [TempKind.file] else [])

/-- The manager left in the `temp_manager` variable after the acquisition
phase: the temp-file manager if a temp file was acquired (second
assignment), else the temp-dir manager, else none. -/
def keptTempManager (template : String) : Option TempKind :=
  if strContains template "{temp_file}" then some TempKind.file
  else if strContains template "{temp_dir}" then some TempKind.dir
  else none

/-- The temp resources released on any exit path of the owning conversion
(success, failure, cancellation, or exception): exactly the kept manager. -/
def releasedTempResources (template : String) : List TempKind :=
  match keptTempManager template with
  | some k => [k]
  | none => []

/-- **C7** — Claim evaluated at the failing input: a template referencing
both `\x7btemp_dir\x7d` and `\x7btemp_file\x7d` acquires two temp resources, but
only the temp file is ever released — the temp directory is leaked on every
exit path, contradicting the invariant that every acquired temp resource is
deleted exactly once. -/
theorem claim_C7_tempDirLeak :
    templateAcquisitions
        "soffice --convert-to pdf --outdir {temp_dir} {input} && mv {temp_file} {output}" =
      [TempKind.dir, TempKind.file] ∧
    releasedTempResources
        "soffice --convert-to pdf --outdir {temp_dir} {input} && mv {temp_file} {output}" =
      [TempKind.file] ∧
    TempKind.dir ∈ templateAcquisitions
        "soffice --convert-to pdf --outdir {temp_dir} {input} && mv {temp_file} {output}" ∧
    TempKind.dir ∉ releasedTempResources
        "soffice --convert-to pdf --outdir {temp_dir} {input} && mv {temp_file} {output}" := by
  refine ⟨by decide, by decide, by decide, by decide⟩

end ConvertFile
